import Mathlib

/-!
Verification development for the menu-gacha generator (`src/app.py`).

The catalog model, genre policy, feasibility check, scorer, candidate
generator and selector are embedded as executable Lean definitions.
Randomness (`random.choice` / `random.choices`) is modelled by an injected
oracle: each draw consumes one oracle value and selects an index modulo the
current pool size for the generator, and a cumulative-weight draw on a
rational in `[0, total)` for the selector.  Every behaviour of the Python
RNG corresponds to some oracle, so universally quantified theorems over
oracles cover all runs of the program.  Python floats are modelled by `ℚ`.
-/

namespace FoodGacha

/-- Genre labels, app.py `GENRES`. -/
def GENRES : List String := ["和", "洋", "中", "その他"]

/-- Meal-role labels, app.py `GROUPS`. -/
def GROUPS : List String := ["主菜", "副菜", "主食", "乳製品", "果物"]

/-- app.py `RoleOption`: a set of role tags one use of a dish covers, plus a draw weight. -/
structure RoleOption where
  groups : List String
  weight : ℚ
  deriving DecidableEq

/-- app.py `MenuItem`: a dish of the catalog. -/
structure MenuItem where
  id : Int
  name : String
  genre : String
  difficulty : Int
  role_options : List RoleOption
  deriving DecidableEq

/-- app.py `_genre_cluster`: under preference 和, genres 和 and 中 merge into one cluster. -/
def _genre_cluster (genre : String) (preferred_genre : Option String) : String :=
  if preferred_genre = some "和" ∧ (genre = "和" ∨ genre = "中") then "和中" else genre

/-- Python `dict.get k dflt` for a map written as a literal list of bindings where a
later binding for the same key overwrites an earlier one (hence the reverse lookup). -/
def dictGet (m : List (String × ℚ)) (k : String) (dflt : ℚ) : ℚ :=
  (m.reverse.lookup k).getD dflt

/-- app.py `_genre_policy`: maps the genre preference (and base genre for automatic
mode) to an optional allow-set and a genre-bonus map.  `none`/`""` preferences and
unknown preference strings yield no filter and an empty bonus map. -/
def _genre_policy (preferred_genre : Option String) (base_genre : Option String) :
    Option (List String) × List (String × ℚ) :=
  match preferred_genre with
  | none => (none, [])
  | some p =>
    if p = "" then (none, [])
    else if p = "自動" then
      match base_genre with
      | none => (none, [])
      | some b => (some [b, "その他"], [(b, 1.18), ("その他", 0.96)])
    else if p = "和" then
      (some ["和", "中", "その他"], [("和", 1.32), ("中", 0.70), ("その他", 0.30)])
    else if p = "洋" then (some ["洋", "その他"], [("洋", 1.28), ("その他", 0.30)])
    else if p = "中" then (some ["中", "その他"], [("中", 1.28), ("その他", 0.30)])
    else if p = "その他" then (some ["その他"], [("その他", 1.0)])
    else (none, [])

/-- app.py `feasible_auto_base_genres`: base genres (non-その他, in `GENRES` order) for
which every positively-requested role has at least one coverable in-range dish of
genre `base` or その他. -/
def feasible_auto_base_genres (items : List MenuItem) (counts : String → Int)
    (difficulty_range : Int × Int) : List String :=
  let dmin := difficulty_range.1
  let dmax := difficulty_range.2
  let required := GROUPS.filter (fun g => decide (0 < counts g))
  let bases := GENRES.filter (fun g => decide (g ≠ "その他"))
  bases.filter (fun base =>
    required.all (fun group =>
      items.any (fun it =>
        (it.genre == base || it.genre == "その他")
          && decide (dmin ≤ it.difficulty) && decide (it.difficulty ≤ dmax)
          && it.role_options.any (fun opt => opt.groups.contains group))))

/-- app.py `score_selection`: cluster-homogeneity points plus genre-preference points
minus the surplus penalty. -/
def score_selection (selection : List (MenuItem × RoleOption))
    (preferred_genre : Option String) (target_dish_count : Int) : Int :=
  let items2 := selection.map Prod.fst
  let genres := items2.map MenuItem.genre
  let s1 : Int :=
    if genres = [] then 0
    else
      let clustered := genres.map (fun g => _genre_cluster g preferred_genre)
      let base := clustered.headD ""
      let same : Int := ((clustered.filter (fun g => g == base)).length : Int)
      if same = (clustered.length : Int) then 6
      else 2 * max 0 (same - 1) - ((clustered.length : Int) - same)
  let s2 : Int :=
    match preferred_genre with
    | none => 0
    | some p =>
      if p = "" ∨ p = "自動" then 0
      else if p = "和" then
        2 * ((items2.filter (fun x => x.genre == "和")).length : Int)
          + ((items2.filter (fun x => x.genre == "中")).length : Int)
      else 2 * ((items2.filter (fun x => x.genre == p)).length : Int)
  s1 + s2 - max 0 ((items2.length : Int) - target_dish_count)

/-- Insert into a sorted list, before the first element not below `a`
(the helper of the stable sort used for Python's `sorted` / `list.sort`). -/
def insertSorted {α : Type} (le : α → α → Bool) (a : α) : List α → List α
  | [] => [a]
  | b :: bs => if le a b then a :: b :: bs else b :: insertSorted le a bs

/-- Stable sort (insertion sort): the model of Python's stable `sorted` and
`list.sort`. -/
def insertionSort {α : Type} (le : α → α → Bool) : List α → List α
  | [] => []
  | a :: as => insertSorted le a (insertionSort le as)

/-- app.py `_selection_signature_and_ids`: the sorted deduplicated dish-id list and
its "-"-joined string form. -/
def _selection_signature_and_ids (selection : List (MenuItem × RoleOption)) :
    String × List Int :=
  let ids := insertionSort (fun a b => decide (a ≤ b))
    ((selection.map (fun p => p.1.id)).dedup)
  (String.intercalate "-" (ids.map toString), ids)

/-- The flattened requirement multiset `needed` built in `generate_candidates`:
each role of `GROUPS`, repeated `max 0 (counts g)` times, in `GROUPS` order. -/
def needed_list (counts : String → Int) : List String :=
  GROUPS.flatMap (fun g => List.replicate (counts g).toNat g)

/-- `target_dish_count` of `generate_candidates`: the total requested slot count. -/
def total_requested (counts : String → Int) : Int :=
  (GROUPS.map (fun g => max 0 (counts g))).sum

/-- Count of an option's role tags still present in `remaining` (`cover` in app.py). -/
def option_cover (opt : RoleOption) (remaining : List String) : ℕ :=
  (opt.groups.filter (fun gg => remaining.contains gg)).length

/-- Placeholder element for `List.getD`; never selected from a non-empty pool. -/
def dummy_pick : MenuItem × RoleOption × ℚ := (⟨0, "", "", 0, []⟩, ⟨[], 0⟩, 0)

/-- The candidate pool built at one step of a generator trial: unused, in-range,
genre-allowed dishes, one entry per role option that contains the drawn target and
promises no role absent from `remaining`; weighted by option weight, genre bonus
and multi-cover boost. -/
def buildCands (items : List MenuItem) (chosen_ids : List Int) (dmin dmax : Int)
    (allowed_genres : Option (List String)) (genre_bonus_map : List (String × ℚ))
    (target : String) (remaining : List String) : List (MenuItem × RoleOption × ℚ) :=
  items.flatMap (fun it =>
    if it.id ∈ chosen_ids then []
    else if dmin ≤ it.difficulty ∧ it.difficulty ≤ dmax then
      let genreOK : Bool :=
        match allowed_genres with
        | some A => decide (it.genre ∈ A)
        | none => true
      if genreOK then
        let genre_bonus : ℚ :=
          if genre_bonus_map = [] then 1 else dictGet genre_bonus_map it.genre 0.9
        it.role_options.filterMap (fun opt =>
          if target ∈ opt.groups ∧ ∀ gg ∈ opt.groups, gg ∈ remaining then
            some (it, opt,
              opt.weight * genre_bonus * (1 + 0.6 * ((option_cover opt remaining - 1 : ℕ) : ℚ)))
          else none)
      else []
    else [])

/-- State of one generator trial: outstanding role slots, used dish ids, and the
selection built so far. -/
structure TrialState where
  remaining : List String
  chosen_ids : List Int
  selection : List (MenuItem × RoleOption)
  deriving DecidableEq

/-- The target role drawn at step `k` of a trial (`random.choice(remaining)`,
modelled by oracle value `orc (2*k)` modulo the multiset size). -/
def trial_target (orc : ℕ → ℕ) (k : ℕ) (st : TrialState) : String :=
  st.remaining.getD (orc (2 * k) % st.remaining.length) ""

/-- The step-`k` candidate pool of a trial. -/
def trial_cands (items : List MenuItem) (dmin dmax : Int)
    (allowed_genres : Option (List String)) (genre_bonus_map : List (String × ℚ))
    (orc : ℕ → ℕ) (k : ℕ) (st : TrialState) : List (MenuItem × RoleOption × ℚ) :=
  buildCands items st.chosen_ids dmin dmax allowed_genres genre_bonus_map
    (trial_target orc k st) st.remaining

/-- One accepted pick at step `k`: draw a pool entry (`random.choices`, modelled by
oracle value `orc (2*k+1)` modulo the pool size), mark the dish used, append the
pair, and remove one occurrence of each covered role tag from `remaining`. -/
def trial_step (items : List MenuItem) (dmin dmax : Int)
    (allowed_genres : Option (List String)) (genre_bonus_map : List (String × ℚ))
    (orc : ℕ → ℕ) (k : ℕ) (st : TrialState) : TrialState :=
  let cands := trial_cands items dmin dmax allowed_genres genre_bonus_map orc k st
  let pick := cands.getD (orc (2 * k + 1) % cands.length) dummy_pick
  { remaining := pick.2.1.groups.foldl List.erase st.remaining
    chosen_ids := pick.1.id :: st.chosen_ids
    selection := st.selection ++ [(pick.1, pick.2.1)] }

/-- The bounded step loop of one generator trial.  An empty pool aborts the trial
with an empty selection, mirroring the `break` in app.py. -/
def runTrialLoop (items : List MenuItem) (dmin dmax : Int)
    (allowed_genres : Option (List String)) (genre_bonus_map : List (String × ℚ))
    (orc : ℕ → ℕ) : ℕ → ℕ → TrialState → TrialState
  | 0, _, st => st
  | fuel + 1, k, st =>
    if st.remaining = [] then st
    else if trial_cands items dmin dmax allowed_genres genre_bonus_map orc k st = [] then
      { st with selection := [] }
    else
      runTrialLoop items dmin dmax allowed_genres genre_bonus_map orc fuel (k + 1)
        (trial_step items dmin dmax allowed_genres genre_bonus_map orc k st)

/-- A candidate: selection, score, signature, sorted dish-id list (the 4-tuples
returned by `generate_candidates` in app.py). -/
structure Cand where
  selection : List (MenuItem × RoleOption)
  score : Int
  sig : String
  ids : List Int
  deriving DecidableEq

/-- One generator trial: run the step loop on the flattened requirement; succeed
(`some`) only if the selection is non-empty and no required slot is left. -/
def trial_result (items : List MenuItem) (preferred_genre : Option String)
    (counts : String → Int) (dmin dmax : Int) (base_genre : Option String)
    (orc : ℕ → ℕ) : Option Cand :=
  let pol := _genre_policy preferred_genre base_genre
  let needed := needed_list counts
  let st := runTrialLoop items dmin dmax pol.1 pol.2 orc
    (max 10 (needed.length * 3)) 0 ⟨needed, [], []⟩
  if st.selection = [] then none
  else if st.remaining ≠ [] then none
  else
    let s := score_selection st.selection preferred_genre (total_requested counts)
    let si := _selection_signature_and_ids st.selection
    some ⟨st.selection, s, si.1, si.2⟩

/-- All successful trials of one generator run, in trial order; trial `i` draws
from oracle `orcs i`. -/
def successful_trials (items : List MenuItem) (preferred_genre : Option String)
    (counts : String → Int) (dmin dmax : Int) (base_genre : Option String)
    (tries : ℕ) (orcs : ℕ → ℕ → ℕ) : List Cand :=
  (List.range tries).filterMap (fun i =>
    trial_result items preferred_genre counts dmin dmax base_genre (orcs i))

/-- The signature-dedup step of `generate_candidates`: keep the stored candidate
unless the new one scores strictly higher (Python dict update keeps the key's
original insertion position). -/
def insertBest (unique : List (String × Cand)) (c : Cand) : List (String × Cand) :=
  match unique.lookup c.sig with
  | none => unique ++ [(c.sig, c)]
  | some prev =>
    if prev.score < c.score then
      unique.map (fun p => if p.1 = c.sig then (c.sig, c) else p)
    else unique

/-- app.py `generate_candidates`: short-circuit on an empty requirement, run the
trials, dedup by signature keeping the best score, sort by score descending
(stable) and return the top `keep`. -/
def generate_candidates (items : List MenuItem) (preferred_genre : Option String)
    (counts : String → Int) (difficulty_range : Int × Int)
    (base_genre : Option String) (tries keep : ℕ) (orcs : ℕ → ℕ → ℕ) : List Cand :=
  if total_requested counts ≤ 0 then []
  else
    let trials := successful_trials items preferred_genre counts
      difficulty_range.1 difficulty_range.2 base_genre tries orcs
    let unique := trials.foldl insertBest []
    (insertionSort (fun a b => decide (b.score ≤ a.score)) (unique.map Prod.snd)).take keep

/-- The working pool of the selector: top 90 candidates for auto/deluxe/chef,
the whole list otherwise. -/
def pickModePool (candidates : List Cand) (pick_mode : String) : List Cand :=
  if pick_mode = "auto" ∨ pick_mode = "deluxe" ∨ pick_mode = "chef" then
    candidates.take 90
  else candidates

/-- Jaccard-style overlap as computed in `pick_menu_from_candidates`
(`max 1` in the denominator). -/
def jaccard_overlap (ids last_ids : List Int) : ℚ :=
  let ids_set := ids.toFinset
  let last_set := last_ids.toFinset
  ((ids_set ∩ last_set).card : ℚ) / ((max 1 ((ids_set ∪ last_set).card) : ℕ) : ℚ)

/-- The final draw weight of one candidate in `pick_menu_from_candidates`:
mode shaping on the min-max-normalized score, recency suppression, overlap
suppression, floored at `1e-6`. -/
def selector_weight (pick_mode : String) (recent_signatures : List String)
    (last_ids : List Int) (min_s : Int) (denom : ℚ) (c : Cand) : ℚ :=
  let t : ℚ := ((c.score - min_s : Int) : ℚ) / denom
  let w1 : ℚ :=
    if pick_mode = "deluxe" then 0.7 + 2.6 * t ^ 2
    else if pick_mode = "chef" then 0.25 + 4.5 * t ^ 4
    else if pick_mode = "auto" then 0.45 + 3.4 * t ^ 3
    else 1
  let w2 : ℚ := if c.sig ∈ recent_signatures then w1 * 0.03 else w1
  let w3 : ℚ :=
    if last_ids ≠ [] then w2 * max 0.06 (1 - 0.82 * jaccard_overlap c.ids last_ids)
    else w2
  max 0.000001 w3

/-- The weight list over the selector's working pool (min, max and denominator as
in app.py). -/
def selector_weights (pool : List Cand) (pick_mode : String)
    (recent_signatures : List String) (last_ids : List Int) : List ℚ :=
  let scores := pool.map Cand.score
  let min_s := scores.foldl min (scores.headD 0)
  let max_s := scores.foldl max (scores.headD 0)
  let denom : ℚ := if max_s ≠ min_s then ((max_s - min_s : Int) : ℚ) else 1
  pool.map (selector_weight pick_mode recent_signatures last_ids min_s denom)

/-- Cumulative-weight draw (the model of `random.choices`): select the first index
whose cumulative weight interval contains `r`. -/
def weightedIndex (ws : List ℚ) (r : ℚ) : ℕ :=
  match ws with
  | [] => 0
  | w :: rest => if r < w then 0 else weightedIndex rest (r - w) + 1

/-- Placeholder candidate for `List.getD`; never selected from a non-empty pool. -/
def empty_cand : Cand := ⟨[], 0, "", []⟩

/-- app.py `pick_menu_from_candidates`: explicit empty result on an empty candidate
list, otherwise a weighted draw (cumulative draw at `r`) over the working pool. -/
def pick_menu_from_candidates (candidates : List Cand) (pick_mode : String)
    (recent_signatures : List String) (last_ids : List Int) (r : ℚ) : Cand :=
  if candidates = [] then ⟨[], -(10 ^ 9 : Int), "", []⟩
  else
    let pool := pickModePool candidates pick_mode
    let ws := selector_weights pool pick_mode recent_signatures last_ids
    pool.getD (weightedIndex ws r) empty_cand

/-! Claim-side characterizations (worded from the specification, to be compared
with the source-derived definitions above). -/

/-- Feasibility predicate as worded in the spec: every positively requested role
has at least one dish of genre `b` or その他, in difficulty range, owning an option
containing that role. -/
def base_ok (items : List MenuItem) (counts : String → Int) (dmin dmax : Int)
    (b : String) : Prop :=
  ∀ group ∈ GROUPS, 0 < counts group →
    ∃ it ∈ items, (it.genre = b ∨ it.genre = "その他") ∧
      dmin ≤ it.difficulty ∧ it.difficulty ≤ dmax ∧
      ∃ opt ∈ it.role_options, group ∈ opt.groups

/-- Cluster labelling as worded in the scorer claim: a single merged label when the
preference is 和 and the genre is 和 or 中, else the genre itself. -/
def claim_cluster (preferred_genre : Option String) (g : String) : String :=
  if preferred_genre = some "和" ∧ (g = "和" ∨ g = "中") then "和中" else g

/-- The scorer formula as worded in the claim: `H + P - max 0 (n - target)`. -/
def claim_score (selection : List (MenuItem × RoleOption))
    (preferred_genre : Option String) (target_dish_count : Int) : Int :=
  let n : Int := (selection.length : Int)
  let clusters := selection.map (fun p => claim_cluster preferred_genre p.1.genre)
  let same : Int := ((clusters.filter (fun g => g == clusters.headD "")).length : Int)
  let H : Int := if 0 < n ∧ same = n then 6 else 2 * max 0 (same - 1) - (n - same)
  let P : Int :=
    match preferred_genre with
    | none => 0
    | some p =>
      if p = "" ∨ p = "自動" then 0
      else if p = "和" then
        2 * ((selection.filter (fun x => x.1.genre == "和")).length : Int)
          + ((selection.filter (fun x => x.1.genre == "中")).length : Int)
      else 2 * ((selection.filter (fun x => x.1.genre == p)).length : Int)
  H + P - max 0 (n - target_dish_count)

/-- Concrete one-dish catalog entry whose single role option covers both 主食 and
主菜 (used for concrete checks of the generator). -/
def exItem : MenuItem := ⟨1, "x", "和", 3, [⟨["主食", "主菜"], 1⟩]⟩

/-- Concrete requirement: one 主食 and one 主菜. -/
def exCounts : String → Int := fun g => if g = "主食" ∨ g = "主菜" then 1 else 0

/-- A concrete generator run (one trial, zero oracle). -/
def exGen : List Cand :=
  generate_candidates [exItem] none exCounts (1, 5) none 1 260 (fun _ _ => 0)

/-- The candidate produced by the concrete generator run. -/
def exCand : Cand := exGen.headD empty_cand

/-- Per-pair facts maintained by every generator trial: distinct dish ids, ids
registered in `chosen_ids`, and every chosen pair drawn from the filtered pool. -/
def SelInv (items : List MenuItem) (dmin dmax : Int) (allowed : Option (List String))
    (st : TrialState) : Prop :=
  (st.selection.map (fun p => p.1.id)).Nodup ∧
  (∀ p ∈ st.selection, p.1.id ∈ st.chosen_ids) ∧
  (∀ p ∈ st.selection, p.1 ∈ items ∧ dmin ≤ p.1.difficulty ∧ p.1.difficulty ≤ dmax ∧
    (∀ A, allowed = some A → p.1.genre ∈ A) ∧ p.2 ∈ p.1.role_options ∧ p.2.groups ≠ [])

/-- Role tags covered by a selection, with multiplicity. -/
def covered_groups (selection : List (MenuItem × RoleOption)) : List String :=
  selection.flatMap (fun p => p.2.groups)

/-- Invariant of the signature-dedup dictionary relative to the successful trials
processed so far: distinct keys; each stored candidate carries its key as
signature, is one of the processed trials, beats every earlier same-signature
trial strictly and every processed same-signature trial weakly; and every
processed trial's signature is a key. -/
def DInv (processed : List Cand) (d : List (String × Cand)) : Prop :=
  (d.map Prod.fst).Nodup ∧
  (∀ kv ∈ d, kv.2.sig = kv.1) ∧
  (∀ kv ∈ d, ∃ l1 l2, processed = l1 ++ kv.2 :: l2 ∧
    ∀ t ∈ l1, t.sig = kv.1 → t.score < kv.2.score) ∧
  (∀ kv ∈ d, ∀ t ∈ processed, t.sig = kv.1 → t.score ≤ kv.2.score) ∧
  (∀ t ∈ processed, ∃ kv, kv ∈ d ∧ kv.1 = t.sig)

/-- Mode shaping curve `S(t)` as worded in the selector claim. -/
def claim_S (pick_mode : String) (t : ℚ) : ℚ :=
  if pick_mode = "usual" ∨ pick_mode = "microwave" then 1
  else if pick_mode = "auto" then 0.45 + 3.4 * t ^ 3
  else if pick_mode = "deluxe" then 0.7 + 2.6 * t ^ 2
  else if pick_mode = "chef" then 0.25 + 4.5 * t ^ 4
  else 1

/-- Min-max normalized score `t` as worded in the claim (denominator `1` when all
pool scores are equal). -/
def claim_t (pool : List Cand) (c : Cand) : ℚ :=
  let mn := (pool.map Cand.score).min?.getD 0
  let mx := (pool.map Cand.score).max?.getD 0
  ((c.score - mn : Int) : ℚ) / (if mx = mn then 1 else ((mx - mn : Int) : ℚ))

/-- Recency suppression factor `R` as worded in the claim. -/
def claim_R (recent_signatures : List String) (c : Cand) : ℚ :=
  if c.sig ∈ recent_signatures then 0.03 else 1

/-- Jaccard overlap of two dish-id sets as worded in the claim. -/
def claim_J (ids last_ids : List Int) : ℚ :=
  ((ids.toFinset ∩ last_ids.toFinset).card : ℚ) /
    ((ids.toFinset ∪ last_ids.toFinset).card : ℚ)

/-- Overlap suppression factor `V` as worded in the claim. -/
def claim_V (last_ids : List Int) (c : Cand) : ℚ :=
  if last_ids ≠ [] then max 0.06 (1 - 0.82 * claim_J c.ids last_ids) else 1

/-- The claim's selector draw weight `max (10^-6) (S(t) * R * V)`. -/
def claim_weight (pool : List Cand) (pick_mode : String)
    (recent_signatures : List String) (last_ids : List Int) (c : Cand) : ℚ :=
  max (1 / 1000000)
    (claim_S pick_mode (claim_t pool c) * claim_R recent_signatures c *
      claim_V last_ids c)

/-- Inserting into a list permutes consing onto it. -/
theorem insertSorted_perm {α : Type} (le : α → α → Bool) (a : α) (l : List α) :
    (insertSorted le a l).Perm (a :: l) := by
  induction l with
  | nil => exact List.Perm.refl _
  | cons b bs ih =>
    rw [insertSorted]
    split
    · exact List.Perm.refl _
    · exact (ih.cons b).trans (List.Perm.swap a b bs)

/-- The stable sort is a permutation of its input. -/
theorem insertionSort_perm {α : Type} (le : α → α → Bool) (l : List α) :
    (insertionSort le l).Perm l := by
  induction l with
  | nil => exact List.Perm.refl _
  | cons a as ih =>
    rw [insertionSort]
    exact (insertSorted_perm le a _).trans (ih.cons a)

/-- Inserting into a sorted list keeps it sorted (for a total transitive
comparison). -/
theorem insertSorted_pairwise {α : Type} {le : α → α → Bool}
    (htotal : ∀ a b, (le a b || le b a) = true)
    (htrans : ∀ a b c, le a b = true → le b c = true → le a c = true)
    (a : α) : ∀ {l : List α}, l.Pairwise (fun x y => le x y = true) →
    (insertSorted le a l).Pairwise (fun x y => le x y = true) := by
  intro l
  induction l with
  | nil => intro h; simp [insertSorted]
  | cons b bs ih =>
    intro h
    obtain ⟨hb, hbs⟩ := List.pairwise_cons.mp h
    rw [insertSorted]
    split
    · rename_i hab
      refine List.Pairwise.cons ?_ h
      intro y hy
      rcases List.mem_cons.mp hy with rfl | hy2
      · exact hab
      · exact htrans a b y hab (hb y hy2)
    · rename_i hab
      have hba : le b a = true := by
        cases hh : le a b with
        | true => exact absurd hh hab
        | false => simpa [hh] using htotal a b
      refine List.Pairwise.cons ?_ (ih hbs)
      intro y hy
      have hy2 := (insertSorted_perm le a bs).mem_iff.mp hy
      rcases List.mem_cons.mp hy2 with rfl | hy3
      · exact hba
      · exact hb y hy3

/-- The stable sort is sorted (for a total transitive comparison). -/
theorem insertionSort_pairwise {α : Type} {le : α → α → Bool}
    (htotal : ∀ a b, (le a b || le b a) = true)
    (htrans : ∀ a b c, le a b = true → le b c = true → le a c = true) :
    ∀ l : List α, (insertionSort le l).Pairwise (fun x y => le x y = true) := by
  intro l
  induction l with
  | nil => simp [insertionSort]
  | cons a as ih =>
    rw [insertionSort]
    exact insertSorted_pairwise htotal htrans a ih

/-- An element fetched with `getD` at an in-range index is a member. -/
theorem getD_mem {α : Type} (l : List α) (n : ℕ) (d : α) (h : n < l.length) :
    l.getD n d ∈ l := by
  rw [List.getD_eq_getElem l d h]
  exact List.getElem_mem h

/-- The target drawn at a step is one of the outstanding role slots. -/
theorem trial_target_mem (orc : ℕ → ℕ) (k : ℕ) (st : TrialState)
    (h : st.remaining ≠ []) : trial_target orc k st ∈ st.remaining := by
  apply getD_mem
  exact Nat.mod_lt _ (List.length_pos.mpr h)

/-- Membership in the step pool implies all the filter conditions of the source. -/
theorem mem_buildCands {items : List MenuItem} {chosen_ids : List Int}
    {dmin dmax : Int} {allowed : Option (List String)}
    {genre_bonus_map : List (String × ℚ)} {target : String} {remaining : List String}
    {c : MenuItem × RoleOption × ℚ}
    (hc : c ∈ buildCands items chosen_ids dmin dmax allowed genre_bonus_map
      target remaining) :
    c.1 ∈ items ∧ c.1.id ∉ chosen_ids ∧ dmin ≤ c.1.difficulty ∧
      c.1.difficulty ≤ dmax ∧ (∀ A, allowed = some A → c.1.genre ∈ A) ∧
      c.2.1 ∈ c.1.role_options ∧ target ∈ c.2.1.groups ∧
      ∀ gg ∈ c.2.1.groups, gg ∈ remaining := by
  unfold buildCands at hc
  rw [List.mem_flatMap] at hc
  obtain ⟨it, hit, hc⟩ := hc
  split at hc
  · simp at hc
  · split at hc
    · rename_i hid hdiff
      rcases allowed with - | A
      · rw [if_pos rfl, List.mem_filterMap] at hc
        obtain ⟨opt, hopt, heq⟩ := hc
        split at heq
        · rename_i hcond
          injection heq with heq2
          subst heq2
          exact ⟨hit, hid, hdiff.1, hdiff.2, by simp, hopt, hcond.1, hcond.2⟩
        · simp at heq
      · simp only [decide_eq_true_eq] at hc
        split at hc
        · rename_i hgen
          rw [List.mem_filterMap] at hc
          obtain ⟨opt, hopt, heq⟩ := hc
          split at heq
          · rename_i hcond
            injection heq with heq2
            subst heq2
            refine ⟨hit, hid, hdiff.1, hdiff.2, ?_, hopt, hcond.1, hcond.2⟩
            intro A2 hA2
            injection hA2 with hA3
            subst hA3
            simpa using hgen
          · simp at heq
        · simp at hc
    · simp at hc

/-- Folding `List.erase` subtracts, as multisets (erasing an absent element is a
no-op on both sides). -/
theorem foldl_erase_coe (gs : List String) : ∀ rem : List String,
    ((List.foldl List.erase rem gs : List String) : Multiset String) =
      (rem : Multiset String) - (gs : Multiset String) := by
  induction gs with
  | nil => intro rem; simp
  | cons a gs ih =>
    intro rem
    rw [List.foldl_cons, ih (rem.erase a), ← Multiset.cons_coe, Multiset.sub_cons,
      Multiset.coe_erase]

/-- A duplicate-free list all of whose members occur in `rem` is below `rem` as a
multiset. -/
theorem coe_le_of_nodup_subset {gs rem : List String} (hnd : gs.Nodup)
    (hsub : ∀ g ∈ gs, g ∈ rem) : (gs : Multiset String) ≤ (rem : Multiset String) := by
  rw [Multiset.le_iff_count]
  intro a
  rw [Multiset.coe_count, Multiset.coe_count]
  by_cases ha : a ∈ gs
  · have h1 : gs.count a ≤ 1 := List.nodup_iff_count_le_one.mp hnd a
    have h2 : 0 < rem.count a := List.count_pos_iff.mpr (hsub a ha)
    omega
  · simp [List.count_eq_zero.mpr ha]

/-- Erasing a list of tags at least one of which is present strictly shrinks the
remaining list. -/
theorem foldl_erase_length_lt {gs rem : List String} (hg : ∃ g ∈ gs, g ∈ rem) :
    (List.foldl List.erase rem gs).length < rem.length := by
  obtain ⟨g, hgg, hgr⟩ := hg
  have h1 : ((List.foldl List.erase rem gs : List String) : Multiset String) ≤
      (rem : Multiset String).erase g := by
    rw [foldl_erase_coe, ← Multiset.sub_singleton]
    exact tsub_le_tsub_left (by simpa using hgg) _
  have h2 := Multiset.card_le_card h1
  rw [Multiset.coe_card] at h2
  rw [Multiset.card_erase_of_mem (by simpa using hgr), Multiset.coe_card] at h2
  have h3 : 0 < rem.length := List.length_pos.mpr (List.ne_nil_of_mem hgr)
  rw [Nat.pred_eq_sub_one] at h2
  omega

/-- The entry drawn from a non-empty step pool is a member of the pool. -/
theorem trial_pick_mem (items : List MenuItem) (dmin dmax : Int)
    (allowed : Option (List String)) (bonus : List (String × ℚ)) (orc : ℕ → ℕ)
    (k : ℕ) (st : TrialState)
    (h : trial_cands items dmin dmax allowed bonus orc k st ≠ []) :
    (trial_cands items dmin dmax allowed bonus orc k st).getD
        (orc (2 * k + 1) % (trial_cands items dmin dmax allowed bonus orc k st).length)
        dummy_pick ∈
      trial_cands items dmin dmax allowed bonus orc k st :=
  getD_mem _ _ _ (Nat.mod_lt _ (List.length_pos.mpr h))

/-- One accepted step preserves the selection invariant, grows the selection by
one pair, and strictly shrinks the outstanding slots. -/
theorem trial_step_inv (items : List MenuItem) (dmin dmax : Int)
    (allowed : Option (List String)) (bonus : List (String × ℚ)) (orc : ℕ → ℕ)
    (k : ℕ) (st : TrialState) (hrem : st.remaining ≠ [])
    (hcands : trial_cands items dmin dmax allowed bonus orc k st ≠ [])
    (hinv : SelInv items dmin dmax allowed st) :
    SelInv items dmin dmax allowed (trial_step items dmin dmax allowed bonus orc k st) ∧
      (trial_step items dmin dmax allowed bonus orc k st).selection.length =
        st.selection.length + 1 ∧
      (trial_step items dmin dmax allowed bonus orc k st).remaining.length <
        st.remaining.length := by
  obtain ⟨hnodup, hchosen, hpairs⟩ := hinv
  have hmem := trial_pick_mem items dmin dmax allowed bonus orc k st hcands
  rw [trial_cands] at hmem
  obtain ⟨hit, hid, hd1, hd2, hgen, hopt, htgt, hsub⟩ := mem_buildCands hmem
  have htarget : trial_target orc k st ∈ st.remaining := trial_target_mem _ _ _ hrem
  refine ⟨⟨?_, ?_, ?_⟩, ?_, ?_⟩
  · rw [trial_step]
    simp only [List.map_append, List.map_cons, List.map_nil]
    rw [List.nodup_append]
    refine ⟨hnodup, List.nodup_singleton _, ?_⟩
    intro x hx hx2
    simp only [List.mem_singleton] at hx2
    subst hx2
    rw [List.mem_map] at hx
    obtain ⟨p, hp, hpid⟩ := hx
    exact hid (hpid ▸ hchosen p hp)
  · intro p hp
    rw [trial_step] at hp ⊢
    simp only [List.mem_append, List.mem_singleton] at hp
    rcases hp with hp | hp
    · exact List.mem_cons_of_mem _ (hchosen p hp)
    · subst hp
      exact List.mem_cons_self _ _
  · intro p hp
    rw [trial_step] at hp
    simp only [List.mem_append, List.mem_singleton] at hp
    rcases hp with hp | hp
    · exact hpairs p hp
    · subst hp
      exact ⟨hit, hd1, hd2, hgen, hopt, List.ne_nil_of_mem htgt⟩
  · rw [trial_step]
    simp
  · rw [trial_step]
    exact foldl_erase_length_lt ⟨trial_target orc k st, htgt, htarget⟩

/-- One accepted step leaves "covered role tags plus outstanding slots" invariant
as a multiset, provided every role option is duplicate-free. -/
theorem trial_step_cover (items : List MenuItem) (dmin dmax : Int)
    (allowed : Option (List String)) (bonus : List (String × ℚ)) (orc : ℕ → ℕ)
    (k : ℕ) (st : TrialState) (hrem : st.remaining ≠ [])
    (hcands : trial_cands items dmin dmax allowed bonus orc k st ≠ [])
    (hnd : ∀ it ∈ items, ∀ opt ∈ it.role_options, opt.groups.Nodup) :
    (covered_groups (trial_step items dmin dmax allowed bonus orc k st).selection :
        Multiset String) +
        ((trial_step items dmin dmax allowed bonus orc k st).remaining : Multiset String) =
      (covered_groups st.selection : Multiset String) + (st.remaining : Multiset String) := by
  have hmem := trial_pick_mem items dmin dmax allowed bonus orc k st hcands
  rw [trial_cands] at hmem
  obtain ⟨hit, hid, hd1, hd2, hgen, hopt, htgt, hsub⟩ := mem_buildCands hmem
  rw [trial_step]
  simp only [trial_cands, covered_groups, List.flatMap_append, List.flatMap_cons,
    List.flatMap_nil, List.append_nil]
  rw [foldl_erase_coe, ← Multiset.coe_add]
  have hle := coe_le_of_nodup_subset (hnd _ hit _ hopt) hsub
  rw [add_assoc, add_tsub_cancel_of_le hle]

/-- The trial loop preserves the selection invariant and never grows
"selection length plus outstanding slots" (unless it aborts the trial). -/
theorem runTrialLoop_basic (items : List MenuItem) (dmin dmax : Int)
    (allowed : Option (List String)) (bonus : List (String × ℚ)) (orc : ℕ → ℕ) :
    ∀ (fuel k : ℕ) (st : TrialState), SelInv items dmin dmax allowed st →
      (runTrialLoop items dmin dmax allowed bonus orc fuel k st).selection = [] ∨
        (SelInv items dmin dmax allowed
            (runTrialLoop items dmin dmax allowed bonus orc fuel k st) ∧
          (runTrialLoop items dmin dmax allowed bonus orc fuel k st).selection.length +
              (runTrialLoop items dmin dmax allowed bonus orc fuel k st).remaining.length ≤
            st.selection.length + st.remaining.length) := by
  intro fuel
  induction fuel with
  | zero => intro k st h; exact Or.inr ⟨h, le_refl _⟩
  | succ fuel ih =>
    intro k st h
    rw [runTrialLoop]
    split
    · exact Or.inr ⟨h, le_refl _⟩
    · rename_i hrem
      split
      · exact Or.inl rfl
      · rename_i hcands
        obtain ⟨h1, h2, h3⟩ := trial_step_inv items dmin dmax allowed bonus orc k st
          hrem hcands h
        rcases ih (k + 1) (trial_step items dmin dmax allowed bonus orc k st) h1 with
          h4 | ⟨h4, h5⟩
        · exact Or.inl h4
        · exact Or.inr ⟨h4, by omega⟩

/-- The trial loop preserves "covered role tags plus outstanding slots" as a
multiset (unless it aborts the trial), provided every role option is
duplicate-free. -/
theorem runTrialLoop_cover (items : List MenuItem) (dmin dmax : Int)
    (allowed : Option (List String)) (bonus : List (String × ℚ)) (orc : ℕ → ℕ)
    (hnd : ∀ it ∈ items, ∀ opt ∈ it.role_options, opt.groups.Nodup) :
    ∀ (fuel k : ℕ) (st : TrialState),
      (runTrialLoop items dmin dmax allowed bonus orc fuel k st).selection = [] ∨
        (covered_groups (runTrialLoop items dmin dmax allowed bonus orc fuel k st).selection :
            Multiset String) +
            ((runTrialLoop items dmin dmax allowed bonus orc fuel k st).remaining :
              Multiset String) =
          (covered_groups st.selection : Multiset String) + (st.remaining : Multiset String) := by
  intro fuel
  induction fuel with
  | zero => intro k st; exact Or.inr rfl
  | succ fuel ih =>
    intro k st
    rw [runTrialLoop]
    split
    · exact Or.inr rfl
    · rename_i hrem
      split
      · exact Or.inl rfl
      · rename_i hcands
        have h1 := trial_step_cover items dmin dmax allowed bonus orc k st hrem hcands hnd
        rcases ih (k + 1) (trial_step items dmin dmax allowed bonus orc k st) with h4 | h4
        · exact Or.inl h4
        · exact Or.inr (h4.trans h1)

/-- A failed association-list lookup means no entry carries the key. -/
theorem lookup_none_key {β : Type} (d : List (String × β)) (k : String)
    (h : List.lookup k d = none) : ∀ kv ∈ d, kv.1 ≠ k := by
  rw [List.lookup_eq_none_iff] at h
  intro kv hkv heq
  exact bne_iff_ne.mp (h kv hkv) heq.symm

/-- A successful association-list lookup returns a stored entry. -/
theorem lookup_some_mem {β : Type} {d : List (String × β)} {k : String} {v : β}
    (h : List.lookup k d = some v) : (k, v) ∈ d := by
  obtain ⟨l1, l2, rfl, -⟩ := List.lookup_eq_some_iff.mp h
  simp

/-- With duplicate-free keys, an association list stores one value per key. -/
theorem keys_nodup_unique {β : Type} {d : List (String × β)}
    (hnd : (d.map Prod.fst).Nodup) {k : String} {v v' : β}
    (h1 : (k, v) ∈ d) (h2 : (k, v') ∈ d) : v = v' := by
  induction d with
  | nil => simp at h1
  | cons a rest ih =>
    rw [List.map_cons, List.nodup_cons] at hnd
    rcases List.mem_cons.mp h1 with rfl | h1b
    · rcases List.mem_cons.mp h2 with h2a | h2b
      · exact (Prod.mk.injEq .. ▸ h2a.symm).2
      · exact absurd (List.mem_map.mpr ⟨(k, v'), h2b, rfl⟩) hnd.1
    · rcases List.mem_cons.mp h2 with rfl | h2b
      · exact absurd (List.mem_map.mpr ⟨(k, v), h1b, rfl⟩) hnd.1
      · exact ih hnd.2 h1b h2b

/-- Branch equation of `insertBest` when the signature is new. -/
theorem insertBest_none {d : List (String × Cand)} {t : Cand}
    (hlk : d.lookup t.sig = none) : insertBest d t = d ++ [(t.sig, t)] := by
  unfold insertBest
  rw [hlk]

/-- Branch equation of `insertBest` when the signature is already stored. -/
theorem insertBest_some {d : List (String × Cand)} {t prev : Cand}
    (hlk : d.lookup t.sig = some prev) :
    insertBest d t =
      if prev.score < t.score then
        d.map (fun p => if p.1 = t.sig then (t.sig, t) else p)
      else d := by
  unfold insertBest
  rw [hlk]

/-- One `insertBest` step preserves the dictionary invariant, the new trial being
appended to the processed list. -/
theorem insertBest_DInv {processed : List Cand} {d : List (String × Cand)}
    (hd : DInv processed d) (t : Cand) : DInv (processed ++ [t]) (insertBest d t) := by
  obtain ⟨h1, h2, h3, h4, h5⟩ := hd
  cases hlk : d.lookup t.sig with
  | none =>
    rw [insertBest_none hlk]
    have hnk := lookup_none_key d t.sig hlk
    refine ⟨?_, ?_, ?_, ?_, ?_⟩
    · rw [List.map_append, List.nodup_append]
      refine ⟨h1, by simp, ?_⟩
      intro x hx hx2
      simp only [List.map_cons, List.map_nil, List.mem_singleton] at hx2
      subst hx2
      rw [List.mem_map] at hx
      obtain ⟨kv, hkv, hkvx⟩ := hx
      exact hnk kv hkv hkvx
    · intro kv hkv
      rcases List.mem_append.mp hkv with hkv | hkv
      · exact h2 kv hkv
      · rw [List.mem_singleton] at hkv
        rw [hkv]
    · intro kv hkv
      rcases List.mem_append.mp hkv with hkv | hkv
      · obtain ⟨l1, l2, hsplit, hstrict⟩ := h3 kv hkv
        exact ⟨l1, l2 ++ [t], by rw [hsplit]; simp, hstrict⟩
      · rw [List.mem_singleton] at hkv
        rw [hkv]
        refine ⟨processed, [], by simp, ?_⟩
        intro x hx hxsig
        obtain ⟨kv2, hkv2, hkv2sig⟩ := h5 x hx
        exact absurd (hkv2sig.trans hxsig) (hnk kv2 hkv2)
    · intro kv hkv x hx hxsig
      rcases List.mem_append.mp hkv with hkv | hkv
      · rcases List.mem_append.mp hx with hx | hx
        · exact h4 kv hkv x hx hxsig
        · rw [List.mem_singleton] at hx
          rw [hx] at hxsig
          exact absurd hxsig ((hnk kv hkv).symm)
      · rw [List.mem_singleton] at hkv
        rcases List.mem_append.mp hx with hx | hx
        · obtain ⟨kv2, hkv2, hkv2sig⟩ := h5 x hx
          rw [hkv] at hxsig
          exact absurd (hkv2sig.trans hxsig) (hnk kv2 hkv2)
        · rw [List.mem_singleton] at hx
          rw [hkv, hx]
    · intro x hx
      rcases List.mem_append.mp hx with hx | hx
      · obtain ⟨kv2, hkv2, hkv2sig⟩ := h5 x hx
        exact ⟨kv2, List.mem_append_left _ hkv2, hkv2sig⟩
      · rw [List.mem_singleton] at hx
        rw [hx]
        exact ⟨(t.sig, t), List.mem_append_right _ (by simp), rfl⟩
  | some prev =>
    rw [insertBest_some hlk]
    have hprevmem : (t.sig, prev) ∈ d := lookup_some_mem hlk
    have hprevsig : prev.sig = t.sig := h2 _ hprevmem
    have hmemrepl : ∀ kv' ∈ d.map (fun p => if p.1 = t.sig then (t.sig, t) else p),
        (kv'.1 ≠ t.sig ∧ kv' ∈ d) ∨ kv' = (t.sig, t) := by
      intro kv' hkv'
      rw [List.mem_map] at hkv'
      obtain ⟨kv, hkv, hrepl⟩ := hkv'
      by_cases hsig : kv.1 = t.sig
      · rw [if_pos hsig] at hrepl
        exact Or.inr hrepl.symm
      · rw [if_neg hsig] at hrepl
        rw [← hrepl]
        exact Or.inl ⟨hsig, hkv⟩
    have hkeysrepl : (d.map (fun p => if p.1 = t.sig then (t.sig, t) else p)).map Prod.fst =
        d.map Prod.fst := by
      rw [List.map_map]
      apply List.map_congr_left
      intro kv hkv
      by_cases hsig : kv.1 = t.sig
      · simp [hsig]
      · simp [hsig]
    split
    · rename_i hscore
      refine ⟨?_, ?_, ?_, ?_, ?_⟩
      · rw [hkeysrepl]
        exact h1
      · intro kv hkv
        rcases hmemrepl kv hkv with ⟨-, hkv2⟩ | hkveq
        · exact h2 kv hkv2
        · rw [hkveq]
      · intro kv hkv
        rcases hmemrepl kv hkv with ⟨hne, hkv2⟩ | hkveq
        · obtain ⟨l1, l2, hsplit, hstrict⟩ := h3 kv hkv2
          exact ⟨l1, l2 ++ [t], by rw [hsplit]; simp, hstrict⟩
        · rw [hkveq]
          refine ⟨processed, [], by simp, ?_⟩
          intro x hx hxsig
          exact lt_of_le_of_lt (h4 _ hprevmem x hx hxsig) hscore
      · intro kv hkv x hx hxsig
        rcases hmemrepl kv hkv with ⟨hne, hkv2⟩ | hkveq
        · rcases List.mem_append.mp hx with hx | hx
          · exact h4 kv hkv2 x hx hxsig
          · rw [List.mem_singleton] at hx
            rw [hx] at hxsig
            exact absurd hxsig hne.symm
        · rcases List.mem_append.mp hx with hx | hx
          · rw [hkveq] at hxsig ⊢
            exact le_of_lt (lt_of_le_of_lt (h4 _ hprevmem x hx hxsig) hscore)
          · rw [List.mem_singleton] at hx
            rw [hkveq, hx]
      · intro x hx
        rcases List.mem_append.mp hx with hx | hx
        · obtain ⟨kv2, hkv2, hkv2sig⟩ := h5 x hx
          by_cases hsig : kv2.1 = t.sig
          · refine ⟨(t.sig, t), ?_, by rw [← hsig]; exact hkv2sig⟩
            rw [List.mem_map]
            exact ⟨kv2, hkv2, by rw [if_pos hsig]⟩
          · refine ⟨kv2, ?_, hkv2sig⟩
            rw [List.mem_map]
            exact ⟨kv2, hkv2, by rw [if_neg hsig]⟩
        · rw [List.mem_singleton] at hx
          rw [hx]
          refine ⟨(t.sig, t), ?_, rfl⟩
          rw [List.mem_map]
          exact ⟨(t.sig, prev), hprevmem, by rw [if_pos rfl]⟩
    · rename_i hscore
      push_neg at hscore
      refine ⟨h1, h2, ?_, ?_, ?_⟩
      · intro kv hkv
        obtain ⟨l1, l2, hsplit, hstrict⟩ := h3 kv hkv
        exact ⟨l1, l2 ++ [t], by rw [hsplit]; simp, hstrict⟩
      · intro kv hkv x hx hxsig
        rcases List.mem_append.mp hx with hx | hx
        · exact h4 kv hkv x hx hxsig
        · rw [List.mem_singleton] at hx
          rw [hx] at hxsig ⊢
          have hval : kv.2 = prev := by
            have hkvmem : (t.sig, kv.2) ∈ d := by
              rw [hxsig, Prod.mk.eta]
              exact hkv
            exact keys_nodup_unique h1 hkvmem hprevmem
          rw [hval]
          exact hscore
      · intro x hx
        rcases List.mem_append.mp hx with hx | hx
        · exact h5 x hx
        · rw [List.mem_singleton] at hx
          rw [hx]
          exact ⟨(t.sig, prev), hprevmem, rfl⟩

/-- Folding `insertBest` over a batch of trials preserves the dictionary
invariant. -/
theorem foldl_insertBest_DInv : ∀ (ts : List Cand) (processed : List Cand)
    (d : List (String × Cand)), DInv processed d →
    DInv (processed ++ ts) (ts.foldl insertBest d) := by
  intro ts
  induction ts with
  | nil => intro p d h; simpa using h
  | cons t ts ih =>
    intro p d h
    rw [List.foldl_cons]
    have h2 := ih (p ++ [t]) (insertBest d t) (insertBest_DInv h t)
    rw [List.append_assoc] at h2
    simpa using h2

/-- The dedup dictionary built from the trial list satisfies the invariant. -/
theorem DInv_foldl (trials : List Cand) : DInv trials (trials.foldl insertBest []) := by
  have h := foldl_insertBest_DInv trials [] []
    ⟨by simp, by simp, by simp, by simp, by simp⟩
  simpa using h

/-- Every successful trial result satisfies the selection invariants, fits in the
requested slot count, and carries the score, signature and id list computed from
its selection. -/
theorem trial_result_spec (items : List MenuItem) (preferred_genre : Option String)
    (counts : String → Int) (dmin dmax : Int) (base_genre : Option String)
    (orc : ℕ → ℕ) (c : Cand)
    (h : trial_result items preferred_genre counts dmin dmax base_genre orc = some c) :
    c.selection ≠ [] ∧
      (c.selection.map (fun p => p.1.id)).Nodup ∧
      (∀ p ∈ c.selection, p.1 ∈ items ∧ dmin ≤ p.1.difficulty ∧ p.1.difficulty ≤ dmax ∧
        (∀ A, (_genre_policy preferred_genre base_genre).1 = some A → p.1.genre ∈ A) ∧
        p.2 ∈ p.1.role_options ∧ p.2.groups ≠ []) ∧
      c.selection.length ≤ (needed_list counts).length ∧
      c.score = score_selection c.selection preferred_genre (total_requested counts) ∧
      c.sig = (_selection_signature_and_ids c.selection).1 ∧
      c.ids = (_selection_signature_and_ids c.selection).2 := by
  simp only [trial_result] at h
  split at h
  · exact absurd h (by simp)
  · split at h
    · exact absurd h (by simp)
    · rename_i hsel hrem
      injection h with h
      subst h
      push_neg at hrem
      have hinit : SelInv items dmin dmax (_genre_policy preferred_genre base_genre).1
          ⟨needed_list counts, [], []⟩ := ⟨by simp, by simp, by simp⟩
      have hloop := runTrialLoop_basic items dmin dmax
        (_genre_policy preferred_genre base_genre).1
        (_genre_policy preferred_genre base_genre).2 orc
        (max 10 ((needed_list counts).length * 3)) 0 ⟨needed_list counts, [], []⟩ hinit
      rcases hloop with he | ⟨⟨hnodup, hcho, hpairs⟩, hlen⟩
      · exact absurd he hsel
      · refine ⟨hsel, hnodup, hpairs, ?_, rfl, rfl, rfl⟩
        rw [hrem] at hlen
        simpa using hlen

/-- Every successful trial result covers the flattened requirement exactly, as a
multiset, provided every role option is duplicate-free. -/
theorem trial_result_cover (items : List MenuItem) (preferred_genre : Option String)
    (counts : String → Int) (dmin dmax : Int) (base_genre : Option String)
    (orc : ℕ → ℕ) (c : Cand)
    (hnd : ∀ it ∈ items, ∀ opt ∈ it.role_options, opt.groups.Nodup)
    (h : trial_result items preferred_genre counts dmin dmax base_genre orc = some c) :
    (covered_groups c.selection : Multiset String) =
      ((needed_list counts : List String) : Multiset String) := by
  simp only [trial_result] at h
  split at h
  · exact absurd h (by simp)
  · split at h
    · exact absurd h (by simp)
    · rename_i hsel hrem
      injection h with h
      subst h
      push_neg at hrem
      have hloop := runTrialLoop_cover items dmin dmax
        (_genre_policy preferred_genre base_genre).1
        (_genre_policy preferred_genre base_genre).2 orc hnd
        (max 10 ((needed_list counts).length * 3)) 0 ⟨needed_list counts, [], []⟩
      rcases hloop with he | heq
      · exact absurd he hsel
      · rw [hrem] at heq
        simpa [covered_groups] using heq

/-- Membership in the successful-trial list comes from some trial index. -/
theorem mem_successful_trials {items : List MenuItem} {preferred_genre : Option String}
    {counts : String → Int} {dmin dmax : Int} {base_genre : Option String}
    {tries : ℕ} {orcs : ℕ → ℕ → ℕ} {c : Cand}
    (hc : c ∈ successful_trials items preferred_genre counts dmin dmax base_genre
      tries orcs) :
    ∃ i, i < tries ∧
      trial_result items preferred_genre counts dmin dmax base_genre (orcs i) = some c := by
  unfold successful_trials at hc
  rw [List.mem_filterMap] at hc
  obtain ⟨i, hi, h⟩ := hc
  exact ⟨i, List.mem_range.mp hi, h⟩

/-- Every returned candidate is one of the successful trials. -/
theorem mem_generate (items : List MenuItem) (preferred_genre : Option String)
    (counts : String → Int) (dmin dmax : Int) (base_genre : Option String)
    (tries keep : ℕ) (orcs : ℕ → ℕ → ℕ) (c : Cand)
    (hc : c ∈ generate_candidates items preferred_genre counts (dmin, dmax) base_genre
      tries keep orcs) :
    c ∈ successful_trials items preferred_genre counts dmin dmax base_genre tries orcs := by
  unfold generate_candidates at hc
  split at hc
  · simp at hc
  · have h1 := List.take_subset _ _ hc
    have h2 := (insertionSort_perm _ _).mem_iff.mp h1
    rw [List.mem_map] at h2
    obtain ⟨kv, hkv, hkvc⟩ := h2
    obtain ⟨-, -, h3, -, -⟩ := DInv_foldl
      (successful_trials items preferred_genre counts dmin dmax base_genre tries orcs)
    obtain ⟨l1, l2, hsplit, -⟩ := h3 kv hkv
    rw [hsplit, ← hkvc]
    simp

/-- The flattened requirement list has exactly the total requested slot count. -/
theorem needed_length (counts : String → Int) :
    ((needed_list counts).length : Int) = total_requested counts := by
  simp [needed_list, total_requested, GROUPS]
  omega

/-- Occurrence count of each known role in the flattened requirement list. -/
theorem count_needed_list (counts : String → Int) (g : String) (hg : g ∈ GROUPS) :
    (needed_list counts).count g = (counts g).toNat := by
  simp only [GROUPS, List.mem_cons, List.not_mem_nil, or_false] at hg
  rcases hg with rfl | rfl | rfl | rfl | rfl <;>
    simp [needed_list, GROUPS, List.count_append, List.count_replicate]

/-- C1.  Coverage exactness: with duplicate-free non-empty role options and
non-negative requested counts, the multiset of role tags covered by any returned
candidate equals the flattened requirement exactly — each known role appears
exactly `counts` times, with no shortfall and no surplus. -/
theorem C1_coverage_exactness (items : List MenuItem) (preferred_genre : Option String)
    (counts : String → Int) (dmin dmax : Int) (base_genre : Option String)
    (tries keep : ℕ) (orcs : ℕ → ℕ → ℕ)
    (hopts : ∀ it ∈ items, ∀ opt ∈ it.role_options, opt.groups ≠ [] ∧ opt.groups.Nodup)
    (hcounts : ∀ g, 0 ≤ counts g) :
    ∀ c ∈ generate_candidates items preferred_genre counts (dmin, dmax) base_genre
        tries keep orcs,
      (covered_groups c.selection : Multiset String) =
          ((needed_list counts : List String) : Multiset String) ∧
        ∀ g ∈ GROUPS, ((covered_groups c.selection).count g : Int) = counts g := by
  intro c hc
  obtain ⟨i, -, hres⟩ := mem_successful_trials
    (mem_generate items preferred_genre counts dmin dmax base_genre tries keep orcs c hc)
  have hcov := trial_result_cover items preferred_genre counts dmin dmax base_genre
    (orcs i) c (fun it hit opt hopt => (hopts it hit opt hopt).2) hres
  refine ⟨hcov, ?_⟩
  intro g hg
  have hcnt : (covered_groups c.selection).count g = (needed_list counts).count g := by
    have h2 := congrArg (Multiset.count g) hcov
    simpa [Multiset.coe_count] using h2
  rw [hcnt, count_needed_list counts g hg, Int.toNat_of_nonneg (hcounts g)]

/-- C2.  Candidate validity: every returned candidate has pairwise-distinct dish
ids, every dish difficulty lies in the inclusive range, and when the genre policy
yields an allow-set every dish genre belongs to it. -/
theorem C2_candidate_validity (items : List MenuItem) (preferred_genre : Option String)
    (counts : String → Int) (dmin dmax : Int) (base_genre : Option String)
    (tries keep : ℕ) (orcs : ℕ → ℕ → ℕ) :
    ∀ c ∈ generate_candidates items preferred_genre counts (dmin, dmax) base_genre
        tries keep orcs,
      (c.selection.map (fun p => p.1.id)).Nodup ∧
        (∀ p ∈ c.selection, dmin ≤ p.1.difficulty ∧ p.1.difficulty ≤ dmax) ∧
        ∀ A, (_genre_policy preferred_genre base_genre).1 = some A →
          ∀ p ∈ c.selection, p.1.genre ∈ A := by
  intro c hc
  obtain ⟨i, -, hres⟩ := mem_successful_trials
    (mem_generate items preferred_genre counts dmin dmax base_genre tries keep orcs c hc)
  have h := trial_result_spec items preferred_genre counts dmin dmax base_genre
    (orcs i) c hres
  refine ⟨h.2.1, ?_, ?_⟩
  · intro p hp
    exact ⟨(h.2.2.1 p hp).2.1, (h.2.2.1 p hp).2.2.1⟩
  · intro A hA p hp
    exact (h.2.2.1 p hp).2.2.2.1 A hA

/-- C3.  Signature dedup and ranking: the returned candidates have pairwise
distinct signatures; each returned candidate is a successful trial that strictly
beats every earlier same-signature trial (ties keep the earlier trial) and weakly
beats every same-signature trial; the list is sorted by score descending; and at
most `keep` candidates are returned. -/
theorem C3_signature_dedup_ranking (items : List MenuItem)
    (preferred_genre : Option String) (counts : String → Int) (dmin dmax : Int)
    (base_genre : Option String) (tries keep : ℕ) (orcs : ℕ → ℕ → ℕ) :
    ((generate_candidates items preferred_genre counts (dmin, dmax) base_genre
        tries keep orcs).map Cand.sig).Nodup ∧
      (∀ c ∈ generate_candidates items preferred_genre counts (dmin, dmax) base_genre
          tries keep orcs,
        ∃ l1 l2,
          successful_trials items preferred_genre counts dmin dmax base_genre tries orcs =
              l1 ++ c :: l2 ∧
            ∀ t ∈ l1, t.sig = c.sig → t.score < c.score) ∧
      (∀ c ∈ generate_candidates items preferred_genre counts (dmin, dmax) base_genre
          tries keep orcs,
        ∀ t ∈ successful_trials items preferred_genre counts dmin dmax base_genre
            tries orcs,
          t.sig = c.sig → t.score ≤ c.score) ∧
      List.Pairwise (fun a b => b.score ≤ a.score)
        (generate_candidates items preferred_genre counts (dmin, dmax) base_genre
          tries keep orcs) ∧
      (generate_candidates items preferred_genre counts (dmin, dmax) base_genre
          tries keep orcs).length ≤ keep := by
  obtain ⟨hkeys, hsig, hfirst, hmax, -⟩ := DInv_foldl
    (successful_trials items preferred_genre counts dmin dmax base_genre tries orcs)
  by_cases htot : total_requested counts ≤ 0
  · simp [generate_candidates, htot]
  · unfold generate_candidates
    rw [if_neg htot]
    have hvalsig :
        ((successful_trials items preferred_genre counts dmin dmax base_genre tries
            orcs).foldl insertBest []).map (fun kv => kv.2.sig) =
          ((successful_trials items preferred_genre counts dmin dmax base_genre tries
            orcs).foldl insertBest []).map Prod.fst :=
      List.map_congr_left (fun kv hkv => hsig kv hkv)
    have hmemout : ∀ c ∈ (insertionSort (fun a b => decide (b.score ≤ a.score))
          (((successful_trials items preferred_genre counts dmin dmax
            base_genre tries orcs).foldl insertBest []).map Prod.snd)).take keep,
        ∃ kv ∈ (successful_trials items preferred_genre counts dmin dmax base_genre
          tries orcs).foldl insertBest [], kv.2 = c := by
      intro c hc
      have h1 := List.take_subset _ _ hc
      have h2 := (insertionSort_perm _ _).mem_iff.mp h1
      rw [List.mem_map] at h2
      exact h2
    refine ⟨?_, ?_, ?_, ?_, ?_⟩
    · rw [List.map_take]
      apply List.Sublist.nodup (List.take_sublist _ _)
      have hperm := (insertionSort_perm (fun a b => decide (b.score ≤ a.score))
        (((successful_trials items preferred_genre
        counts dmin dmax base_genre tries orcs).foldl insertBest []).map Prod.snd)).map
        Cand.sig
      rw [hperm.nodup_iff, List.map_map]
      rw [show Cand.sig ∘ Prod.snd = fun kv : String × Cand => kv.2.sig from rfl]
      rw [hvalsig]
      exact hkeys
    · intro c hc
      obtain ⟨kv, hkv, hkvc⟩ := hmemout c hc
      obtain ⟨l1, l2, hsplit, hstrict⟩ := hfirst kv hkv
      refine ⟨l1, l2, by rw [hsplit, hkvc], ?_⟩
      intro t ht htsig
      rw [← hkvc] at htsig ⊢
      exact hstrict t ht (by rw [htsig, hsig kv hkv])
    · intro c hc t ht htsig
      obtain ⟨kv, hkv, hkvc⟩ := hmemout c hc
      rw [← hkvc] at htsig ⊢
      exact hmax kv hkv t ht (by rw [htsig, hsig kv hkv])
    · apply List.Pairwise.sublist (List.take_sublist _ _)
      have hsort := @insertionSort_pairwise Cand
        (fun a b : Cand => decide (b.score ≤ a.score))
        (by intro a b; simp only [Bool.or_eq_true, decide_eq_true_eq]; omega)
        (by intro a b c; simp only [decide_eq_true_eq]; omega)
        (((successful_trials items preferred_genre counts dmin dmax base_genre tries
          orcs).foldl insertBest []).map Prod.snd)
      exact hsort.imp (fun h => by simpa using h)
    · exact List.length_take_le _ _

/-- C9 as stated is false: with a single role option covering both 主食 and 主菜,
the generator returns a one-dish candidate although the total requested slot
count is two. -/
theorem C9_counterexample :
    ∃ c ∈ generate_candidates [exItem] none exCounts (1, 5) none 1 260 (fun _ _ => 0),
      (c.selection.length : Int) ≠ total_requested exCounts := by
  decide

/-- C9 (amended).  Selection size is at most the slot count: for every returned
candidate the number of (dish, role option) pairs is at most the total requested
slot count (equality can fail when one option fills several slots). -/
theorem C9_size_at_most (items : List MenuItem) (preferred_genre : Option String)
    (counts : String → Int) (dmin dmax : Int) (base_genre : Option String)
    (tries keep : ℕ) (orcs : ℕ → ℕ → ℕ) :
    ∀ c ∈ generate_candidates items preferred_genre counts (dmin, dmax) base_genre
        tries keep orcs,
      (c.selection.length : Int) ≤ total_requested counts := by
  intro c hc
  obtain ⟨i, -, hres⟩ := mem_successful_trials
    (mem_generate items preferred_genre counts dmin dmax base_genre tries keep orcs c hc)
  have h := trial_result_spec items preferred_genre counts dmin dmax base_genre
    (orcs i) c hres
  have hlen := h.2.2.2.1
  have hn := needed_length counts
  omega

/-- C10.  Size bound and dead penalty: every returned candidate fills at most the
requested number of slots, and the scorer's surplus penalty term
`max 0 (length - target)` is `0` on every generator-produced selection. -/
theorem C10_dead_penalty (items : List MenuItem) (preferred_genre : Option String)
    (counts : String → Int) (dmin dmax : Int) (base_genre : Option String)
    (tries keep : ℕ) (orcs : ℕ → ℕ → ℕ) :
    ∀ c ∈ generate_candidates items preferred_genre counts (dmin, dmax) base_genre
        tries keep orcs,
      c.selection.length ≤ (needed_list counts).length ∧
        max 0 ((c.selection.length : Int) - total_requested counts) = 0 := by
  intro c hc
  obtain ⟨i, -, hres⟩ := mem_successful_trials
    (mem_generate items preferred_genre counts dmin dmax base_genre tries keep orcs c hc)
  have h := trial_result_spec items preferred_genre counts dmin dmax base_genre
    (orcs i) c hres
  have hlen := h.2.2.2.1
  have hn := needed_length counts
  exact ⟨hlen, by omega⟩

/-- C6.  Scorer formula: `score_selection` returns `H + P - max 0 (n - target)`,
with `H` the cluster-homogeneity term (`6` for a fully homogeneous non-empty
selection, else `2*max 0 (same-1) - (n-same)`), and `P` the genre-preference term
(和: `2*#和 + #中`; any other specific non-automatic preference: `2*#exact`;
`0` otherwise). -/
theorem C6_score_formula (selection : List (MenuItem × RoleOption))
    (preferred_genre : Option String) (target_dish_count : Int) :
    score_selection selection preferred_genre target_dish_count =
      claim_score selection preferred_genre target_dish_count := by
  have hfun : ∀ q : MenuItem × RoleOption,
      _genre_cluster (MenuItem.genre q.1) preferred_genre =
        claim_cluster preferred_genre q.1.genre := fun _ => rfl
  cases selection with
  | nil =>
    simp only [score_selection, claim_score, List.map_nil, List.filter_nil,
      List.length_nil]
    cases preferred_genre with
    | none => simp
    | some p =>
      by_cases h1 : p = "" ∨ p = "自動" <;> by_cases h2 : p = "和" <;>
        simp [h1, h2]
  | cons hd tl =>
    unfold score_selection claim_score
    simp only [List.filter_map, List.length_map, List.map_map,
      Function.comp_def, hfun]
    have hpos : (0 : Int) < (((hd :: tl).length : ℕ) : Int) := by
      simp
    simp only [hpos, true_and]
    simp only [List.map_cons, List.length_cons, List.map_map, Function.comp_def, hfun]
    simp only [reduceCtorEq, if_false]

/-- C4.  Genre policy table: exact allow-sets and bonus values for every
preference (和 soft-cluster, 洋/中 strict, その他 only-itself, 自動 with a base
genre), and the no-filter/empty-bonus behaviour for no preference, automatic
mode without a base genre, and unknown preference strings. -/
theorem C4_genre_policy_table (bg : Option String) (b g s : String) (dflt : ℚ) :
    (_genre_policy none bg = (none, []) ∧
      _genre_policy (some "") bg = (none, []) ∧
      _genre_policy (some "自動") none = (none, []) ∧
      (s ∉ (["", "自動", "和", "洋", "中", "その他"] : List String) →
        _genre_policy (some s) bg = (none, []))) ∧
    (∃ A, (_genre_policy (some "和") bg).1 = some A ∧
      (g ∈ A ↔ g = "和" ∨ g = "中" ∨ g = "その他")) ∧
    (dictGet (_genre_policy (some "和") bg).2 "和" dflt = 1.32 ∧
      dictGet (_genre_policy (some "和") bg).2 "中" dflt = 0.70 ∧
      dictGet (_genre_policy (some "和") bg).2 "その他" dflt = 0.30) ∧
    (∃ A, (_genre_policy (some "洋") bg).1 = some A ∧
      (g ∈ A ↔ g = "洋" ∨ g = "その他")) ∧
    (dictGet (_genre_policy (some "洋") bg).2 "洋" dflt = 1.28 ∧
      dictGet (_genre_policy (some "洋") bg).2 "その他" dflt = 0.30) ∧
    (∃ A, (_genre_policy (some "中") bg).1 = some A ∧
      (g ∈ A ↔ g = "中" ∨ g = "その他")) ∧
    (dictGet (_genre_policy (some "中") bg).2 "中" dflt = 1.28 ∧
      dictGet (_genre_policy (some "中") bg).2 "その他" dflt = 0.30) ∧
    (∃ A, (_genre_policy (some "その他") bg).1 = some A ∧ (g ∈ A ↔ g = "その他")) ∧
    dictGet (_genre_policy (some "その他") bg).2 "その他" dflt = 1.0 ∧
    (∃ A, (_genre_policy (some "自動") (some b)).1 = some A ∧
      (g ∈ A ↔ g = b ∨ g = "その他")) ∧
    dictGet (_genre_policy (some "自動") (some b)).2 "その他" dflt = 0.96 ∧
    (b ≠ "その他" → dictGet (_genre_policy (some "自動") (some b)).2 b dflt = 1.18) := by
  refine ⟨⟨rfl, rfl, rfl, ?_⟩, ⟨["和", "中", "その他"], rfl, by simp⟩, ⟨rfl, rfl, rfl⟩,
    ⟨["洋", "その他"], rfl, by simp⟩, ⟨rfl, rfl⟩,
    ⟨["中", "その他"], rfl, by simp⟩, ⟨rfl, rfl⟩,
    ⟨["その他"], rfl, by simp⟩, rfl,
    ⟨[b, "その他"], rfl, by simp⟩, rfl, ?_⟩
  · intro hs
    simp only [List.mem_cons, List.mem_singleton, not_or] at hs
    obtain ⟨h1, h2, h3, h4, h5, h6, -⟩ := hs
    simp [_genre_policy, h1, h2, h3, h4, h5, h6]
  · intro hb
    simp [_genre_policy, dictGet, List.lookup_cons, beq_eq_false_iff_ne.mpr hb]

/-- C5.  Feasibility check: membership in `feasible_auto_base_genres` is exactly
the spec's existence check over all positively requested roles; その他 is never
returned; the result preserves `GENRES` enumeration order; and the result is
empty iff no candidate base genre passes. -/
theorem C5_feasibility (items : List MenuItem) (counts : String → Int)
    (dmin dmax : Int) (b : String) :
    (b ∈ feasible_auto_base_genres items counts (dmin, dmax) ↔
      (b = "和" ∨ b = "洋" ∨ b = "中") ∧ base_ok items counts dmin dmax b) ∧
    "その他" ∉ feasible_auto_base_genres items counts (dmin, dmax) ∧
    (feasible_auto_base_genres items counts (dmin, dmax)).Sublist GENRES ∧
    (feasible_auto_base_genres items counts (dmin, dmax) = [] ↔
      ∀ b2, (b2 = "和" ∨ b2 = "洋" ∨ b2 = "中") →
        ¬ base_ok items counts dmin dmax b2) := by
  have hmem : ∀ b2 : String,
      b2 ∈ feasible_auto_base_genres items counts (dmin, dmax) ↔
        (b2 = "和" ∨ b2 = "洋" ∨ b2 = "中") ∧ base_ok items counts dmin dmax b2 := by
    intro b2
    simp [feasible_auto_base_genres, base_ok, GENRES, GROUPS, List.mem_filter,
      List.all_eq_true, List.any_eq_true, and_assoc]
    intro _
    constructor
    · intro hc
      refine ⟨fun h1 => ?_, fun h2 => ?_, fun h3 => ?_, fun h4 => ?_, fun h5 => ?_⟩ <;>
        [rcases hc.1 with h | h; rcases hc.2.1 with h | h; rcases hc.2.2.1 with h | h;
          rcases hc.2.2.2.1 with h | h; rcases hc.2.2.2.2 with h | h] <;>
        first
          | exact h
          | omega
    · intro hc
      refine ⟨?_, ?_, ?_, ?_, ?_⟩ <;>
        [rcases le_or_lt (counts "主菜") 0 with h | h; rcases le_or_lt (counts "副菜") 0 with h | h;
          rcases le_or_lt (counts "主食") 0 with h | h; rcases le_or_lt (counts "乳製品") 0 with h | h;
          rcases le_or_lt (counts "果物") 0 with h | h] <;>
        first
          | exact Or.inl h
          | exact Or.inr (by
              first
                | exact hc.1 h
                | exact hc.2.1 h
                | exact hc.2.2.1 h
                | exact hc.2.2.2.1 h
                | exact hc.2.2.2.2 h)
  refine ⟨hmem b, ?_, ?_, ?_⟩
  · intro hmem2
    have := (hmem "その他").mp hmem2
    simp at this
  · simp only [feasible_auto_base_genres]
    exact (List.filter_sublist _).trans (List.filter_sublist _)
  · constructor
    · intro he b2 hb2 hok
      have : b2 ∈ feasible_auto_base_genres items counts (dmin, dmax) :=
        (hmem b2).mpr ⟨hb2, hok⟩
      rw [he] at this
      simp at this
    · intro hall
      rw [List.eq_nil_iff_forall_not_mem]
      intro x hx
      have hx2 := (hmem x).mp hx
      exact hall x hx2.1 hx2.2

/-- C8.  Empty-input handling: with every requested role count non-positive the
generator returns the empty list, and the selector applied to an empty candidate
list returns the explicit empty result with sentinel score `-10^9`. -/
theorem C8_empty_inputs (items : List MenuItem) (preferred_genre : Option String)
    (counts : String → Int) (difficulty_range : Int × Int) (base_genre : Option String)
    (tries keep : ℕ) (orcs : ℕ → ℕ → ℕ) (pick_mode : String)
    (recent_signatures : List String) (last_ids : List Int) (r : ℚ)
    (h : ∀ gr ∈ GROUPS, counts gr ≤ 0) :
    generate_candidates items preferred_genre counts difficulty_range base_genre
        tries keep orcs = [] ∧
    pick_menu_from_candidates [] pick_mode recent_signatures last_ids r =
      ⟨[], -(10 ^ 9 : Int), "", []⟩ := by
  constructor
  · have e1 : max 0 (counts "主菜") = 0 := max_eq_left (h _ (by simp [GROUPS]))
    have e2 : max 0 (counts "副菜") = 0 := max_eq_left (h _ (by simp [GROUPS]))
    have e3 : max 0 (counts "主食") = 0 := max_eq_left (h _ (by simp [GROUPS]))
    have e4 : max 0 (counts "乳製品") = 0 := max_eq_left (h _ (by simp [GROUPS]))
    have e5 : max 0 (counts "果物") = 0 := max_eq_left (h _ (by simp [GROUPS]))
    have ht : total_requested counts ≤ 0 := by
      simp [total_requested, GROUPS, e1, e2, e3, e4, e5]
    simp [generate_candidates, ht]
  · rfl

/-- The source's shaping chain agrees with the claim's `S` on every mode string. -/
theorem shaping_eq (m : String) (t : ℚ) :
    (if m = "deluxe" then 0.7 + 2.6 * t ^ 2
      else if m = "chef" then 0.25 + 4.5 * t ^ 4
      else if m = "auto" then 0.45 + 3.4 * t ^ 3
      else 1) = claim_S m t := by
  unfold claim_S
  by_cases h1 : m = "deluxe" <;> by_cases h2 : m = "chef" <;> by_cases h3 : m = "auto" <;>
    by_cases h4 : m = "usual" <;> by_cases h5 : m = "microwave" <;> simp_all

/-- `foldl min` from the head is the list minimum. -/
theorem foldl_min_eq (l : List Int) (hl : l ≠ []) :
    l.foldl min (l.headD 0) = l.min?.getD 0 := by
  cases l with
  | nil => contradiction
  | cons a as =>
    simp only [List.min?, List.headD, Option.getD_some]
    rw [List.foldl_cons, min_self]

/-- `foldl max` from the head is the list maximum. -/
theorem foldl_max_eq (l : List Int) (hl : l ≠ []) :
    l.foldl max (l.headD 0) = l.max?.getD 0 := by
  cases l with
  | nil => contradiction
  | cons a as =>
    simp only [List.max?, List.headD, Option.getD_some]
    rw [List.foldl_cons, max_self]

/-- The source's guarded Jaccard denominator is the true Jaccard when the previous
id set is non-empty. -/
theorem jaccard_eq_claim (ids last_ids : List Int) (h : last_ids ≠ []) :
    jaccard_overlap ids last_ids = claim_J ids last_ids := by
  simp only [jaccard_overlap, claim_J]
  have h1 : 0 < (ids.toFinset ∪ last_ids.toFinset).card := by
    rw [Finset.card_pos]
    cases last_ids with
    | nil => contradiction
    | cons a as => exact ⟨a, by simp⟩
  rw [max_eq_right (by omega)]

/-- The weight list computed by the selector equals, entry by entry, the claim's
`max (10^-6) (S(t) * R * V)`. -/
theorem selector_weights_eq_claim (pool : List Cand) (pick_mode : String)
    (recent_signatures : List String) (last_ids : List Int) (hpool : pool ≠ []) :
    selector_weights pool pick_mode recent_signatures last_ids =
      pool.map (claim_weight pool pick_mode recent_signatures last_ids) := by
  obtain ⟨c0, cs, rfl⟩ : ∃ c0 cs, pool = c0 :: cs := by
    cases pool with
    | nil => contradiction
    | cons a as => exact ⟨a, as, rfl⟩
  simp only [selector_weights]
  apply List.map_congr_left
  intro c hc
  rw [foldl_min_eq _ (by simp), foldl_max_eq _ (by simp)]
  simp only [selector_weight, claim_weight, claim_t, claim_R, claim_V]
  have hdenom :
      (if ((c0 :: cs).map Cand.score).max?.getD 0 ≠ ((c0 :: cs).map Cand.score).min?.getD 0
        then ((((c0 :: cs).map Cand.score).max?.getD 0 -
          ((c0 :: cs).map Cand.score).min?.getD 0 : Int) : ℚ)
        else 1) =
      (if ((c0 :: cs).map Cand.score).max?.getD 0 = ((c0 :: cs).map Cand.score).min?.getD 0
        then 1
        else ((((c0 :: cs).map Cand.score).max?.getD 0 -
          ((c0 :: cs).map Cand.score).min?.getD 0 : Int) : ℚ)) := by
    by_cases hd : ((c0 :: cs).map Cand.score).max?.getD 0 =
        ((c0 :: cs).map Cand.score).min?.getD 0 <;> simp [hd]
  rw [hdenom, shaping_eq]
  by_cases hrec : c.sig ∈ recent_signatures <;> by_cases hlast : last_ids = [] <;>
    simp only [hrec, hlast, if_pos, if_neg, ite_true, ite_false, not_true, not_false_iff,
      ne_eq, not_not] <;>
    first
      | (rw [jaccard_eq_claim _ _ hlast]
         congr 1 <;> first | norm_num | ring)
      | (congr 1 <;> first | norm_num | ring)

/-- The cumulative draw lands strictly inside the weight list when
`0 ≤ r < total`. -/
theorem weightedIndex_lt : ∀ {ws : List ℚ} {r : ℚ}, 0 ≤ r → r < ws.sum →
    weightedIndex ws r < ws.length := by
  intro ws
  induction ws with
  | nil =>
    intro r h0 h1
    simp only [List.sum_nil] at h1
    linarith
  | cons w rest ih =>
    intro r h0 h1
    rw [weightedIndex]
    split
    · simp
    · rename_i hrw
      push_neg at hrw
      have h2 : 0 ≤ r - w := by linarith
      have h3 : r - w < rest.sum := by
        rw [List.sum_cons] at h1
        linarith
      have h4 := ih h2 h3
      simp only [List.length_cons]
      omega

/-- The cumulative draw selects exactly the index whose cumulative-weight interval
contains `r` — the draw is proportional to the weights. -/
theorem weightedIndex_interval : ∀ {ws : List ℚ}, (∀ w ∈ ws, 0 ≤ w) →
    ∀ {r : ℚ}, 0 ≤ r → r < ws.sum →
      (ws.take (weightedIndex ws r)).sum ≤ r ∧
        r < (ws.take (weightedIndex ws r + 1)).sum := by
  intro ws
  induction ws with
  | nil =>
    intro hw r h0 h1
    simp only [List.sum_nil] at h1
    linarith
  | cons w rest ih =>
    intro hw r h0 h1
    rw [weightedIndex]
    split
    · rename_i hrw
      constructor
      · simpa using h0
      · simpa [List.take_succ_cons] using hrw
    · rename_i hrw
      push_neg at hrw
      have h2 : 0 ≤ r - w := by linarith
      have h3 : r - w < rest.sum := by
        rw [List.sum_cons] at h1
        linarith
      have hwr : ∀ x ∈ rest, 0 ≤ x := fun x hx => hw x (List.mem_cons_of_mem _ hx)
      obtain ⟨ha, hb⟩ := ih hwr h2 h3
      constructor
      · rw [List.take_succ_cons, List.sum_cons]
        linarith
      · rw [List.take_succ_cons, List.sum_cons]
        linarith

/-- Every selector weight is non-negative (floored at `1e-6`). -/
theorem selector_weights_nonneg (pool : List Cand) (pick_mode : String)
    (recent_signatures : List String) (last_ids : List Int) :
    ∀ w ∈ selector_weights pool pick_mode recent_signatures last_ids, 0 ≤ w := by
  intro w hwmem
  simp only [selector_weights, List.mem_map] at hwmem
  obtain ⟨c, -, rfl⟩ := hwmem
  unfold selector_weight
  exact le_trans (by norm_num) (le_max_left _ _)

/-- The working pool of a non-empty candidate list is non-empty. -/
theorem pickModePool_ne_nil (candidates : List Cand) (pick_mode : String)
    (hne : candidates ≠ []) : pickModePool candidates pick_mode ≠ [] := by
  unfold pickModePool
  split
  · have hpos : 0 < (candidates.take 90).length := by
      rw [List.length_take]
      have := List.length_pos.mpr hne
      omega
    exact List.length_pos.mp hpos
  · exact hne

/-- C7.  Selector weight formula: over the working pool (top 90 for
auto/deluxe/chef, the whole list otherwise) each candidate's weight is exactly
`max (10^-6) (S(t) * R * V)` with `t` the min-max normalized score, `R` the
recency factor and `V` the Jaccard-overlap factor; and the returned candidate is
the pool member whose cumulative-weight interval contains the draw `r` — a draw
with probability proportional to the weights. -/
theorem C7_selector_weights (candidates : List Cand) (pick_mode : String)
    (recent_signatures : List String) (last_ids : List Int) (r : ℚ)
    (hne : candidates ≠ []) (h0 : 0 ≤ r)
    (h1 : r < (selector_weights (pickModePool candidates pick_mode) pick_mode
      recent_signatures last_ids).sum) :
    selector_weights (pickModePool candidates pick_mode) pick_mode recent_signatures
        last_ids =
      (pickModePool candidates pick_mode).map
        (claim_weight (pickModePool candidates pick_mode) pick_mode recent_signatures
          last_ids) ∧
      pick_menu_from_candidates candidates pick_mode recent_signatures last_ids r ∈
        pickModePool candidates pick_mode ∧
      ∃ i, ∃ hi : i < (pickModePool candidates pick_mode).length,
        pick_menu_from_candidates candidates pick_mode recent_signatures last_ids r =
            (pickModePool candidates pick_mode).get ⟨i, hi⟩ ∧
          ((selector_weights (pickModePool candidates pick_mode) pick_mode
            recent_signatures last_ids).take i).sum ≤ r ∧
          r < ((selector_weights (pickModePool candidates pick_mode) pick_mode
            recent_signatures last_ids).take (i + 1)).sum := by
  have hpool := pickModePool_ne_nil candidates pick_mode hne
  have hweq := selector_weights_eq_claim (pickModePool candidates pick_mode) pick_mode
    recent_signatures last_ids hpool
  have hlen : (selector_weights (pickModePool candidates pick_mode) pick_mode
      recent_signatures last_ids).length = (pickModePool candidates pick_mode).length := by
    simp [selector_weights]
  have hidx := weightedIndex_lt h0 h1
  rw [hlen] at hidx
  have hpick : pick_menu_from_candidates candidates pick_mode recent_signatures
      last_ids r =
      (pickModePool candidates pick_mode).getD
        (weightedIndex (selector_weights (pickModePool candidates pick_mode) pick_mode
          recent_signatures last_ids) r) empty_cand := by
    simp only [pick_menu_from_candidates]
    rw [if_neg hne]
  have hget : (pickModePool candidates pick_mode).getD
      (weightedIndex (selector_weights (pickModePool candidates pick_mode) pick_mode
        recent_signatures last_ids) r) empty_cand =
      (pickModePool candidates pick_mode).get
        ⟨weightedIndex (selector_weights (pickModePool candidates pick_mode) pick_mode
          recent_signatures last_ids) r, hidx⟩ := by
    rw [List.getD_eq_getElem _ _ hidx]
    rfl
  obtain ⟨ha, hb⟩ := weightedIndex_interval
    (selector_weights_nonneg (pickModePool candidates pick_mode) pick_mode
      recent_signatures last_ids) h0 h1
  refine ⟨hweq, ?_, ?_⟩
  · rw [hpick, hget]
    exact List.get_mem _ _ _
  · exact ⟨_, hidx, by rw [hpick, hget], ha, hb⟩

/-- Concrete instance of the coverage-exactness theorem. -/
theorem C1_coverage_exactness_witness :
    (∀ it ∈ [exItem], ∀ opt ∈ it.role_options, opt.groups ≠ [] ∧ opt.groups.Nodup) ∧
      (∀ g, 0 ≤ exCounts g) ∧
      ∀ c ∈ generate_candidates [exItem] none exCounts (1, 5) none 1 260 (fun _ _ => 0),
        (covered_groups c.selection : Multiset String) =
            ((needed_list exCounts : List String) : Multiset String) ∧
          ∀ g ∈ GROUPS, ((covered_groups c.selection).count g : Int) = exCounts g := by
  have hc : ∀ g, 0 ≤ exCounts g := by
    intro g
    unfold exCounts
    split <;> norm_num
  exact ⟨by decide, hc, C1_coverage_exactness [exItem] none exCounts 1 5 none 1 260
    (fun _ _ => 0) (by decide) hc⟩

/-- Concrete instance of the candidate-validity theorem. -/
theorem C2_candidate_validity_witness :
    exCand ∈ generate_candidates [exItem] none exCounts (1, 5) none 1 260
        (fun _ _ => 0) ∧
      (exCand.selection.map (fun p => p.1.id)).Nodup ∧
      (∀ p ∈ exCand.selection, 1 ≤ p.1.difficulty ∧ p.1.difficulty ≤ 5) ∧
      (∀ A, (_genre_policy none none).1 = some A →
        ∀ p ∈ exCand.selection, p.1.genre ∈ A) := by
  refine ⟨by decide, ?_⟩
  exact C2_candidate_validity [exItem] none exCounts 1 5 none 1 260 (fun _ _ => 0)
    exCand (by decide)

/-- Concrete instance of the dedup-and-ranking theorem. -/
theorem C3_signature_dedup_ranking_witness :
    (exGen.map Cand.sig).Nodup ∧
      (∀ t ∈ successful_trials [exItem] none exCounts 1 5 none 1 (fun _ _ => 0),
        t.sig = exCand.sig → t.score ≤ exCand.score) ∧
      exGen.length ≤ 260 := by
  obtain ⟨h1, h2, h3, h4, h5⟩ :=
    C3_signature_dedup_ranking [exItem] none exCounts 1 5 none 1 260 (fun _ _ => 0)
  exact ⟨h1, h3 exCand (by decide), h5⟩

/-- Concrete instance of the genre-policy table theorem. -/
theorem C4_genre_policy_table_witness :
    _genre_policy (some "謎") none = (none, []) ∧
      dictGet (_genre_policy (some "自動") (some "洋")).2 "洋" (9 / 10) = 1.18 := by
  obtain ⟨⟨-, -, -, hunk⟩, -, -, -, -, -, -, -, -, -, -, hb⟩ :=
    C4_genre_policy_table none "洋" "洋" "謎" (9 / 10)
  exact ⟨hunk (by decide), hb (by decide)⟩

/-- Concrete instance of the feasibility theorem. -/
theorem C5_feasibility_witness :
    "その他" ∉ feasible_auto_base_genres [exItem] exCounts (1, 5) :=
  (C5_feasibility [exItem] exCounts 1 5 "和").2.1

/-- Concrete instance of the scorer-formula theorem. -/
theorem C6_score_formula_witness :
    score_selection [(exItem, ⟨["主食", "主菜"], 1⟩)] (some "和") 2 =
      claim_score [(exItem, ⟨["主食", "主菜"], 1⟩)] (some "和") 2 :=
  C6_score_formula [(exItem, ⟨["主食", "主菜"], 1⟩)] (some "和") 2

/-- Concrete instance of the selector theorem: the pick from a one-candidate pool
is a pool member. -/
theorem C7_selector_weights_witness :
    pick_menu_from_candidates [⟨[], 0, "a", []⟩] "usual" [] [] 0 ∈
      pickModePool [⟨[], 0, "a", []⟩] "usual" := by
  have hsum : (0 : ℚ) < (selector_weights
      (pickModePool [⟨[], 0, "a", []⟩] "usual") "usual" [] []).sum := by
    norm_num [selector_weights, selector_weight, pickModePool]
  exact (C7_selector_weights [⟨[], 0, "a", []⟩] "usual" [] [] 0 (by simp) le_rfl
    hsum).2.1

/-- Concrete instance of the empty-input theorem. -/
theorem C8_empty_inputs_witness :
    generate_candidates [] none (fun _ => 0) (1, 5) none 650 260 (fun _ _ => 0) = [] ∧
      pick_menu_from_candidates [] "usual" [] [] 0 = ⟨[], -(10 ^ 9 : Int), "", []⟩ :=
  C8_empty_inputs [] none (fun _ => 0) (1, 5) none 650 260 (fun _ _ => 0) "usual" [] []
    0 (by decide)

/-- Concrete instance of the amended size-bound theorem. -/
theorem C9_size_at_most_witness :
    (exCand.selection.length : Int) ≤ total_requested exCounts :=
  C9_size_at_most [exItem] none exCounts 1 5 none 1 260 (fun _ _ => 0) exCand
    (by decide)

/-- Concrete instance of the dead-penalty theorem. -/
theorem C10_dead_penalty_witness :
    exCand.selection.length ≤ (needed_list exCounts).length ∧
      max 0 ((exCand.selection.length : Int) - total_requested exCounts) = 0 :=
  C10_dead_penalty [exItem] none exCounts 1 5 none 1 260 (fun _ _ => 0) exCand
    (by decide)

end FoodGacha
